import Mathlib

/-!
Verification development for `docs/create-issues.py`: a script that loads
work items from a JSON file, sorts them, renders issue bodies, and creates
GitHub issues sequentially, recording created issue numbers to backfill
"Depends on #N" links.

The Python source is shallowly embedded: JSON-level values that matter to
the script are given Lean types, the rendering functions are translated
string for string, and the effectful main flow is modelled as a pure
function from an environment (credential, load result, repository
accessibility, and an oracle giving the outcome of each remote create
call) to a trace of remote calls, sleeps and log events, plus the
accumulated identifier-to-number map and the dry-run report.
-/

/-- The `phase` field of a work item as it appears in the JSON input: either a
number or a string (the script compares it with the string
`"cross-cutting"` and otherwise uses it directly as a sort key). -/
inductive Phase where
  | num (n : Int)
  | str (s : String)
deriving DecidableEq

/-- One record of the `issues` array of the input file, with the fields the
script accesses (`id`, `title`, `description`, `effort_days`, `priority`,
`phase`, `dependencies`, `acceptance_criteria`, `labels`). -/
structure WorkItem where
  id : Int
  title : String
  description : String
  effort_days : Int
  priority : String
  phase : Phase
  dependencies : List Int
  acceptance_criteria : List String
  labels : List String
deriving DecidableEq

/-- Python `str()` of a phase value: numbers print as decimal integers,
strings print as themselves. -/
def phaseStr : Phase → String
  | Phase.num n => toString n
  | Phase.str s => s

/-- Model of Python `str.upper()` (ASCII range, which covers the priority
values the script uses): uppercase every character. -/
def pyUpper (s : String) : String :=
  String.mk (s.data.map Char.toUpper)

/-- Concatenation of a list of strings, modelling the `body += ...` loops. -/
def strConcat : List String → String
  | [] => ""
  | s :: rest => s ++ strConcat rest

/-- The `## Acceptance Criteria` bullet lines: `- {ac}\n` for each criterion. -/
def acSection (acs : List String) : String :=
  strConcat (acs.map (fun a => "- " ++ a ++ "\n"))

/-- The text under the `## Dependencies` heading: `- Issue {dep}\n` per
dependency, or `None\n` when the list is empty. -/
def depSection (deps : List Int) : String :=
  if deps.isEmpty then "None\n"
  else strConcat (deps.map (fun d => "- Issue " ++ toString d ++ "\n"))

/-- The fixed part of the body up to and including the `## Dependencies`
heading (description, effort, upper-cased priority). -/
def descPart (x : WorkItem) : String :=
  "## Description\n" ++ x.description ++ "\n\n## Estimated Effort\n"
    ++ toString x.effort_days ++ " days\n" ++ "\n## Priority\n"
    ++ pyUpper x.priority ++ "\n" ++ "\n## Dependencies\n"

/-- The `## Acceptance Criteria` heading plus its bullet lines. -/
def acPart (x : WorkItem) : String :=
  "\n## Acceptance Criteria\n" ++ acSection x.acceptance_criteria

/-- The trailing `## Phase` section. -/
def phasePart (x : WorkItem) : String :=
  "\n## Phase\n" ++ phaseStr x.phase ++ "\n"

/-- `format_issue_body` from the source: the full rendered body of one
work item (before dependency links are appended by the main loop). -/
def format_issue_body (x : WorkItem) : String :=
  descPart x ++ depSection x.dependencies ++ acPart x ++ phasePart x

/-- Lookup in the `created_issues` dict, represented as an association
list with the most recent binding first (Python dict assignment
overwrites, so the first match is the current binding). -/
def lookupCreated (d : Int) : List (Int × Int) → Option Int
  | [] => none
  | (i, n) :: rest => if i = d then some n else lookupCreated d rest

/-- The `- Depends on #{number}\n` lines: one per dependency that is
present in the created map, in dependency-list order. -/
def dependsLines (created : List (Int × Int)) : List Int → String
  | [] => ""
  | d :: ds =>
      (match lookupCreated d created with
        | some n => "- Depends on #" ++ toString n ++ "\n"
        | none => "") ++ dependsLines created ds

/-- The `## Related Issues` section appended by the main loop when the
item has a nonempty dependency list. -/
def relatedSection (created : List (Int × Int)) (deps : List Int) : String :=
  if deps.isEmpty then "" else "\n## Related Issues\n" ++ dependsLines created deps

/-- The body actually submitted for an item: rendered body plus the
related-issues section built from the created map at that moment. -/
def fullBody (x : WorkItem) (created : List (Int × Int)) : String :=
  format_issue_body x ++ relatedSection created x.dependencies

/-- The issue title: prefixed with `Phase {phase}: ` unless the phase is
the string `cross-cutting`. -/
def mkTitle (x : WorkItem) : String :=
  if x.phase = Phase.str "cross-cutting" then x.title
  else "Phase " ++ phaseStr x.phase ++ ": " ++ x.title

/-- A Python sort-key component: the value
`0 if phase == "cross-cutting" else phase`, which is an int or a str. -/
inductive PyKey where
  | int (n : Int)
  | str (s : String)
deriving DecidableEq

/-- First component of the sort key for one item. -/
def phaseKey : Phase → PyKey
  | Phase.num n => PyKey.int n
  | Phase.str s => if s = "cross-cutting" then PyKey.int 0 else PyKey.str s

/-- Whether a key component is an int. -/
def PyKey.isInt : PyKey → Bool
  | PyKey.int _ => true
  | PyKey.str _ => false

/-- Whether a key component is a str. -/
def PyKey.isStr : PyKey → Bool
  | PyKey.int _ => false
  | PyKey.str _ => true

/-- Python string comparison on code-point lists: lexicographic, with a
proper shorter list sorting first. -/
def charListLt : List Char → List Char → Bool
  | [], [] => false
  | [], _ :: _ => true
  | _ :: _, [] => false
  | a :: as, b :: bs => decide (a < b) || (a == b && charListLt as bs)

/-- Strict order on key components. Comparisons between an int and a str
raise `TypeError` in Python; `sortIssues` only sorts homogeneous key
lists, so the cross-type branches below are never reached there (they
are fixed arbitrarily to keep the relation total). -/
def pkLTb : PyKey → PyKey → Bool
  | PyKey.int n, PyKey.int m => decide (n < m)
  | PyKey.str s, PyKey.str t => charListLt s.data t.data
  | PyKey.int _, PyKey.str _ => true
  | PyKey.str _, PyKey.int _ => false

/-- Non-strict lexicographic order on the two-part sort key
`(0 if phase == "cross-cutting" else phase, id)`. -/
def keyLE (a b : WorkItem) : Bool :=
  pkLTb (phaseKey a.phase) (phaseKey b.phase)
    || (decide (phaseKey a.phase = phaseKey b.phase) && decide (a.id ≤ b.id))

/-- `keyLE` as a relation, for use with `List.insertionSort`. -/
def keyR (a b : WorkItem) : Prop := keyLE a b = true

instance : DecidableRel keyR := fun a b =>
  inferInstanceAs (Decidable (keyLE a b = true))

/-- The Python `sorted` call succeeds on the key of the script exactly when the first
key components are all ints or all strs; otherwise some int/str
comparison raises `TypeError`. -/
def sortOk (issues : List WorkItem) : Bool :=
  issues.all (fun x => (phaseKey x.phase).isInt)
    || issues.all (fun x => (phaseKey x.phase).isStr)

/-- The uncaught-exception class of the sort step. -/
inductive PyError where
  | typeError
deriving DecidableEq

/-- The sort step of `create_github_issues`: a stable sort by
`(0 if phase == "cross-cutting" else phase, id)`, or a `TypeError` when
int and str key components are mixed (CPython compares every pair of
differently-typed keys directly or transitively, so a mixed key list
always raises). -/
def sortIssues (issues : List WorkItem) : Except PyError (List WorkItem) :=
  if sortOk issues then Except.ok (issues.insertionSort keyR)
  else Except.error PyError.typeError

/-- The outcome of one `repo.create_issue` call, as decided by the
environment: success with the assigned issue number, a
`GithubException` with status 403 (rate limit), or any other
`GithubException`. -/
inductive CreateOutcome where
  | success (n : Int)
  | rateLimited
  | otherError
deriving DecidableEq

/-- A remote API call made by the script. -/
inductive RemoteCall where
  | getRepo (name : String)
  | createIssue (title : String) (body : String) (labels : List String)
deriving DecidableEq

/-- One observable step of the run: a remote call, a `time.sleep`, or an
error log line. -/
inductive Step where
  | call (c : RemoteCall)
  | sleep (seconds : Nat)
  | logError
deriving DecidableEq

/-- Everything observable about one create attempt: the item, the title
and body submitted, the created map at that moment, and the outcome. -/
structure Submission where
  item : WorkItem
  title : String
  body : String
  createdAt : List (Int × Int)
  outcome : CreateOutcome
deriving DecidableEq

/-- Output of the non-dry-run creation loop. -/
structure LoopOut where
  trace : List Step
  subs : List Submission
  created : List (Int × Int)
deriving DecidableEq

/-- The non-dry-run `for issue_data in issues_sorted` loop. `k` is the
index of the next create attempt (fed to the outcome oracle), `created`
the accumulated identifier-to-number map. On success the number is
recorded and the loop sleeps 1; on a 403 the error is logged and the
loop sleeps 60 and moves on; on any other error the error is logged and
the loop moves on. The failed item is never retried. -/
def issueLoop (oracle : Nat → CreateOutcome) :
    List WorkItem → Nat → List (Int × Int) → LoopOut
  | [], _, created => ⟨[], [], created⟩
  | x :: rest, k, created =>
    let t := mkTitle x
    let b := fullBody x created
    match oracle k with
    | CreateOutcome.success n =>
        let r := issueLoop oracle rest (k + 1) ((x.id, n) :: created)
        ⟨Step.call (RemoteCall.createIssue t b x.labels) :: Step.sleep 1 :: r.trace,
          ⟨x, t, b, created, CreateOutcome.success n⟩ :: r.subs, r.created⟩
    | CreateOutcome.rateLimited =>
        let r := issueLoop oracle rest (k + 1) created
        ⟨Step.call (RemoteCall.createIssue t b x.labels) :: Step.logError
            :: Step.sleep 60 :: r.trace,
          ⟨x, t, b, created, CreateOutcome.rateLimited⟩ :: r.subs, r.created⟩
    | CreateOutcome.otherError =>
        let r := issueLoop oracle rest (k + 1) created
        ⟨Step.call (RemoteCall.createIssue t b x.labels) :: Step.logError :: r.trace,
          ⟨x, t, b, created, CreateOutcome.otherError⟩ :: r.subs, r.created⟩

/-- Observable result of `create_github_issues` (and of a whole run):
remote-call/sleep/log trace, the create attempts, the final created map,
the dry-run "Would create" report `(id, title)` lines, and whether the
process terminated abnormally (`sys.exit(1)` or an uncaught exception,
both of which give the process exit status 1). -/
structure RunResult where
  trace : List Step
  subs : List Submission
  created : List (Int × Int)
  reported : List (Int × String)
  failed : Bool
deriving DecidableEq

/-- `create_github_issues` from the source. It always calls `get_repo`
first (also in dry-run mode); on an access error it exits. It then sorts
(a mixed-type key raises `TypeError`, an uncaught abort). In dry-run
mode it only prints the would-create report; otherwise it runs the
creation loop. -/
def create_github_issues (repoOk : Bool) (oracle : Nat → CreateOutcome)
    (repo_name : String) (issues : List WorkItem) (dry_run : Bool) : RunResult :=
  if !repoOk then ⟨[Step.call (RemoteCall.getRepo repo_name)], [], [], [], true⟩
  else
    match sortIssues issues with
    | Except.error _ =>
        ⟨[Step.call (RemoteCall.getRepo repo_name)], [], [], [], true⟩
    | Except.ok sortedIssues =>
        if dry_run then
          ⟨[Step.call (RemoteCall.getRepo repo_name)], [], [],
            sortedIssues.map (fun x => (x.id, mkTitle x)), false⟩
        else
          let r := issueLoop oracle sortedIssues 0 []
          ⟨Step.call (RemoteCall.getRepo repo_name) :: r.trace,
            r.subs, r.created, [], false⟩

/-- Result of loading the input file in `main`: missing file, malformed
JSON, or the parsed list of items. -/
inductive LoadResult where
  | notFound
  | parseError
  | ok (issues : List WorkItem)
deriving DecidableEq

/-- Python truthiness of `args.token`: falsy when absent or empty. -/
def pyFalsy : Option String → Bool
  | none => true
  | some s => s = ""

/-- An empty result for runs that exit before reaching the remote. -/
def exitEarly : RunResult := ⟨[], [], [], [], true⟩

/-- `main` from the source: validate the credential (unless dry-run),
load the file, then run `create_github_issues`. Returns the process exit
code together with the observable run result. -/
def mainRun (dry_run : Bool) (token : Option String) (repo_name : String)
    (load : LoadResult) (repoOk : Bool) (oracle : Nat → CreateOutcome) :
    Nat × RunResult :=
  if !dry_run && pyFalsy token then (1, exitEarly)
  else
    match load with
    | LoadResult.notFound => (1, exitEarly)
    | LoadResult.parseError => (1, exitEarly)
    | LoadResult.ok issues =>
        let r := create_github_issues repoOk oracle repo_name issues dry_run
        (if r.failed then 1 else 0, r)

/-- The remote calls of a trace, in order. -/
def remoteCalls (t : List Step) : List RemoteCall :=
  t.filterMap (fun s => match s with
    | Step.call c => some c
    | _ => none)

/-- The trace block one create attempt contributes. -/
def subBlock (s : Submission) : List Step :=
  Step.call (RemoteCall.createIssue s.title s.body s.item.labels) ::
    match s.outcome with
    | CreateOutcome.success _ => [Step.sleep 1]
    | CreateOutcome.rateLimited => [Step.logError, Step.sleep 60]
    | CreateOutcome.otherError => [Step.logError]

/-- The created-map entry a create attempt contributes, if successful. -/
def successEntry (s : Submission) : Option (Int × Int) :=
  match s.outcome with
  | CreateOutcome.success n => some (s.item.id, n)
  | _ => none

/-- Substring containment, on code-point lists. -/
def ContainsSubstr (s t : String) : Prop :=
  ∃ p q : List Char, s.data = p ++ t.data ++ q

instance {ε α : Type} [DecidableEq ε] [DecidableEq α] : DecidableEq (Except ε α) :=
  fun a b =>
    match a, b with
    | Except.error e, Except.error f =>
        if h : e = f then isTrue (by rw [h]) else isFalse (by simp [h])
    | Except.error _, Except.ok _ => isFalse (by simp)
    | Except.ok _, Except.error _ => isFalse (by simp)
    | Except.ok x, Except.ok y =>
        if h : x = y then isTrue (by rw [h]) else isFalse (by simp [h])

/-- Sample item: a cross-cutting item with no dependencies. -/
def itemCrossCut : WorkItem :=
  ⟨2, "Threat model", "descC", 1, "low", Phase.str "cross-cutting", [], ["crit C"], ["meta"]⟩

/-- Sample item: a numbered-phase-`0` item. -/
def itemPhaseZero : WorkItem :=
  ⟨1, "Bootstrap", "descZ", 1, "low", Phase.num 0, [], [], []⟩

/-- Sample item: a string phase distinct from `cross-cutting`. -/
def itemStrPhase : WorkItem :=
  ⟨3, "Odd", "descS", 1, "low", Phase.str "security", [], [], []⟩

/-- Sample item: a phase-1 item depending on item 1. -/
def itemDep : WorkItem :=
  ⟨2, "Build", "descB", 3, "high", Phase.num 1, [1], ["crit B"], ["build"]⟩

/-- Sample item: a cross-cutting item with identifier 1. -/
def itemBase : WorkItem :=
  ⟨1, "Base", "descA", 2, "high", Phase.str "cross-cutting", [], ["crit A"], ["core"]⟩

/-- Outcome oracle that makes the k-th create call succeed with number
`100 + k`. -/
def oracleSeq : Nat → CreateOutcome := fun k => CreateOutcome.success (100 + (k : Int))

/-- Outcome oracle that fails every create call with a non-403 error. -/
def oracleFail : Nat → CreateOutcome := fun _ => CreateOutcome.otherError

theorem cs_of_eq {s t : String} (u v : String) (h : s = u ++ (t ++ v)) :
    ContainsSubstr s t :=
  ⟨u.data, v.data, by rw [h]; simp [String.data_append, List.append_assoc]⟩

theorem cs_self (t : String) : ContainsSubstr t t :=
  ⟨[], [], by simp⟩

theorem cs_left {s t : String} (u : String) (h : ContainsSubstr s t) :
    ContainsSubstr (u ++ s) t := by
  obtain ⟨p, q, hp⟩ := h
  exact ⟨u.data ++ p, q, by rw [String.data_append, hp]; simp [List.append_assoc]⟩

theorem cs_right {s t : String} (u : String) (h : ContainsSubstr s t) :
    ContainsSubstr (s ++ u) t := by
  obtain ⟨p, q, hp⟩ := h
  exact ⟨p, q ++ u.data, by rw [String.data_append, hp]; simp [List.append_assoc]⟩

theorem acSection_contains {acs : List String} {a : String} (h : a ∈ acs) :
    ContainsSubstr (acSection acs) a := by
  induction acs with
  | nil => exact absurd h (List.not_mem_nil a)
  | cons x rest ih =>
    rcases List.mem_cons.mp h with he | hm
    · subst he
      exact cs_right (acSection rest) (cs_right "\n" (cs_left "- " (cs_self a)))
    · exact cs_left ("- " ++ x ++ "\n") (ih hm)

theorem depSection_contains {ds : List Int} {d : Int} (h : d ∈ ds) :
    ContainsSubstr (depSection ds) ("- Issue " ++ toString d ++ "\n") := by
  have hne : ds.isEmpty = false := by
    cases ds with
    | nil => exact absurd h (List.not_mem_nil d)
    | cons e es => rfl
  unfold depSection
  rw [hne]
  simp only [Bool.false_eq_true, if_false]
  induction ds with
  | nil => exact absurd h (List.not_mem_nil d)
  | cons e es ih =>
    rcases List.mem_cons.mp h with he | hm
    · subst he
      exact cs_right _ (cs_self ("- Issue " ++ toString d ++ "\n"))
    · cases es with
      | nil => exact absurd hm (List.not_mem_nil d)
      | cons f fs => exact cs_left ("- Issue " ++ toString e ++ "\n") (ih hm rfl)

theorem dependsLines_contains {c : List (Int × Int)} {ds : List Int} {d n : Int}
    (hd : d ∈ ds) (hn : lookupCreated d c = some n) :
    ContainsSubstr (dependsLines c ds) ("- Depends on #" ++ toString n ++ "\n") := by
  induction ds with
  | nil => exact absurd hd (List.not_mem_nil d)
  | cons e es ih =>
    rcases List.mem_cons.mp hd with he | hm
    · subst he
      unfold dependsLines
      rw [hn]
      exact cs_right _ (cs_self ("- Depends on #" ++ toString n ++ "\n"))
    · unfold dependsLines
      exact cs_left _ (ih hm)

theorem dependsLines_unresolved {c : List (Int × Int)} {d : Int}
    (hn : lookupCreated d c = none) :
    ∀ ds : List Int, dependsLines c ds = dependsLines c (ds.filter (fun e => e != d)) := by
  intro ds
  induction ds with
  | nil => rfl
  | cons e es ih =>
    by_cases he : e = d
    · subst he
      rw [show (e :: es).filter (fun a => a != e) = es.filter (fun a => a != e) by
        simp [List.filter_cons]]
      show (match lookupCreated e c with
        | some n => "- Depends on #" ++ toString n ++ "\n"
        | none => "") ++ dependsLines c es = dependsLines c (es.filter (fun a => a != e))
      rw [hn, ih]
      rfl
    · have hkeep : (e != d) = true := by simpa using he
      rw [show (e :: es).filter (fun a => a != d) = e :: es.filter (fun a => a != d) by
        simp [List.filter_cons, hkeep]]
      show (match lookupCreated e c with
        | some n => "- Depends on #" ++ toString n ++ "\n"
        | none => "") ++ dependsLines c es
        = (match lookupCreated e c with
        | some n => "- Depends on #" ++ toString n ++ "\n"
        | none => "") ++ dependsLines c (es.filter (fun a => a != d))
      rw [ih]

theorem format_contains_description (x : WorkItem) :
    ContainsSubstr (format_issue_body x) x.description :=
  cs_of_eq "## Description\n"
    ("\n\n## Estimated Effort\n" ++ toString x.effort_days ++ " days\n" ++ "\n## Priority\n"
      ++ pyUpper x.priority ++ "\n" ++ "\n## Dependencies\n" ++ depSection x.dependencies
      ++ acPart x ++ phasePart x)
    (by simp [format_issue_body, descPart, String.append_assoc]; try rfl)

theorem format_contains_effort (x : WorkItem) :
    ContainsSubstr (format_issue_body x) (toString x.effort_days) :=
  cs_of_eq ("## Description\n" ++ x.description ++ "\n\n## Estimated Effort\n")
    (" days\n" ++ "\n## Priority\n" ++ pyUpper x.priority ++ "\n" ++ "\n## Dependencies\n"
      ++ depSection x.dependencies ++ acPart x ++ phasePart x)
    (by simp [format_issue_body, descPart, String.append_assoc]; try rfl)

theorem format_contains_priority (x : WorkItem) :
    ContainsSubstr (format_issue_body x) ("\n## Priority\n" ++ pyUpper x.priority ++ "\n") :=
  cs_of_eq ("## Description\n" ++ x.description ++ "\n\n## Estimated Effort\n"
      ++ toString x.effort_days ++ " days\n")
    ("\n## Dependencies\n" ++ depSection x.dependencies ++ acPart x ++ phasePart x)
    (by simp [format_issue_body, descPart, String.append_assoc]; try rfl)

theorem format_contains_ac {x : WorkItem} {a : String}
    (h : a ∈ x.acceptance_criteria) :
    ContainsSubstr (format_issue_body x) a := by
  have h1 : ContainsSubstr (acPart x) a :=
    cs_left "\n## Acceptance Criteria\n" (acSection_contains h)
  have h2 : ContainsSubstr (descPart x ++ depSection x.dependencies ++ acPart x) a :=
    cs_left (descPart x ++ depSection x.dependencies) h1
  exact cs_right (phasePart x) h2

theorem format_contains_dep {x : WorkItem} {d : Int} (h : d ∈ x.dependencies) :
    ContainsSubstr (format_issue_body x) ("- Issue " ++ toString d ++ "\n") := by
  have h1 : ContainsSubstr (descPart x ++ depSection x.dependencies) _ :=
    cs_left (descPart x) (depSection_contains h)
  exact cs_right (phasePart x) (cs_right (acPart x) h1)

theorem fullBody_contains_format {x : WorkItem} {c : List (Int × Int)} {t : String}
    (h : ContainsSubstr (format_issue_body x) t) :
    ContainsSubstr (fullBody x c) t :=
  cs_right (relatedSection c x.dependencies) h

theorem fullBody_depends {x : WorkItem} {c : List (Int × Int)} {d n : Int}
    (hd : d ∈ x.dependencies) (hn : lookupCreated d c = some n) :
    ContainsSubstr (fullBody x c) ("- Depends on #" ++ toString n ++ "\n") := by
  have hne : x.dependencies.isEmpty = false := by
    cases hds : x.dependencies with
    | nil => rw [hds] at hd; exact absurd hd (List.not_mem_nil d)
    | cons e es => rfl
  have hrel : relatedSection c x.dependencies
      = "\n## Related Issues\n" ++ dependsLines c x.dependencies := by
    unfold relatedSection
    rw [hne]
    simp
  unfold fullBody
  rw [hrel]
  exact cs_left (format_issue_body x)
    (cs_left "\n## Related Issues\n" (dependsLines_contains hd hn))

theorem charListLt_irrefl : ∀ l : List Char, charListLt l l = false := by
  intro l
  induction l with
  | nil => rfl
  | cons a as ih =>
    simp [charListLt, ih]

theorem charListLt_trans : ∀ {a b c : List Char},
    charListLt a b = true → charListLt b c = true → charListLt a c = true := by
  intro a
  induction a with
  | nil =>
    intro b c hab hbc
    cases b with
    | nil => simp [charListLt] at hab
    | cons x xs =>
      cases c with
      | nil => simp [charListLt] at hbc
      | cons y ys => rfl
  | cons u us ih =>
    intro b c hab hbc
    cases b with
    | nil => simp [charListLt] at hab
    | cons x xs =>
      cases c with
      | nil => simp [charListLt] at hbc
      | cons y ys =>
        simp only [charListLt, Bool.or_eq_true, Bool.and_eq_true, decide_eq_true_eq,
          beq_iff_eq] at hab hbc ⊢
        rcases hab with h1 | ⟨e1, t1⟩
        · rcases hbc with h2 | ⟨e2, t2⟩
          · exact Or.inl (lt_trans h1 h2)
          · exact Or.inl (by rw [← e2]; exact h1)
        · rcases hbc with h2 | ⟨e2, t2⟩
          · exact Or.inl (by rw [e1]; exact h2)
          · exact Or.inr ⟨e1.trans e2, ih t1 t2⟩

theorem charListLt_conn : ∀ {a b : List Char},
    charListLt a b = false → charListLt b a = false → a = b := by
  intro a
  induction a with
  | nil =>
    intro b hab _
    cases b with
    | nil => rfl
    | cons x xs => simp [charListLt] at hab
  | cons u us ih =>
    intro b hab hba
    cases b with
    | nil => simp [charListLt] at hba
    | cons x xs =>
      simp only [charListLt, Bool.or_eq_false_iff, Bool.and_eq_false_iff,
        decide_eq_false_iff_not, beq_iff_eq, beq_eq_false_iff_ne, ne_eq] at hab hba
      have hux : u = x := by
        rcases lt_trichotomy u x with h | h | h
        · exact absurd h hab.1
        · exact h
        · exact absurd h hba.1
      subst hux
      rcases hab.2 with h | h
      · exact absurd rfl h
      · rcases hba.2 with h2 | h2
        · exact absurd rfl h2
        · rw [ih h h2]

theorem pkLTb_irrefl (k : PyKey) : pkLTb k k = false := by
  cases k with
  | int n => simp [pkLTb]
  | str s => simp [pkLTb, charListLt_irrefl]

theorem pkLTb_trans : ∀ {a b c : PyKey},
    pkLTb a b = true → pkLTb b c = true → pkLTb a c = true := by
  intro a b c hab hbc
  cases a with
  | int n =>
    cases c with
    | int m =>
      cases b with
      | int p =>
        simp only [pkLTb, decide_eq_true_eq] at hab hbc ⊢
        omega
      | str s => simp [pkLTb] at hbc
    | str t => rfl
  | str s =>
    cases b with
    | int p => simp [pkLTb] at hab
    | str u =>
      cases c with
      | int m => simp [pkLTb] at hbc
      | str t =>
        simp only [pkLTb] at hab hbc ⊢
        exact charListLt_trans hab hbc

theorem pkLTb_conn : ∀ {a b : PyKey},
    pkLTb a b = false → pkLTb b a = false → a = b := by
  intro a b hab hba
  cases a with
  | int n =>
    cases b with
    | int m =>
      simp only [pkLTb, decide_eq_false_iff_not, not_lt] at hab hba
      have : n = m := le_antisymm hba hab
      rw [this]
    | str t => simp [pkLTb] at hab
  | str s =>
    cases b with
    | int m => simp [pkLTb] at hba
    | str t =>
      simp only [pkLTb] at hab hba
      have : s.data = t.data := charListLt_conn hab hba
      have hst : s = t := by
        cases s; cases t
        exact congrArg String.mk (by simpa using this)
      rw [hst]

instance : IsTotal WorkItem keyR := ⟨by
  intro a b
  unfold keyR keyLE
  cases hp : pkLTb (phaseKey a.phase) (phaseKey b.phase) with
  | true => left; simp
  | false =>
    cases hq : pkLTb (phaseKey b.phase) (phaseKey a.phase) with
    | true => right; simp
    | false =>
      have he := pkLTb_conn hp hq
      rcases le_total a.id b.id with h | h
      · left
        simp [he, h]
      · right
        simp [he, h]⟩

instance : IsTrans WorkItem keyR := ⟨by
  intro a b c hab hbc
  unfold keyR keyLE at hab hbc ⊢
  simp only [Bool.or_eq_true, Bool.and_eq_true, decide_eq_true_eq] at hab hbc ⊢
  rcases hab with h1 | ⟨e1, l1⟩
  · rcases hbc with h2 | ⟨e2, l2⟩
    · exact Or.inl (pkLTb_trans h1 h2)
    · exact Or.inl (by rw [← e2]; exact h1)
  · rcases hbc with h2 | ⟨e2, l2⟩
    · exact Or.inl (by rw [e1]; exact h2)
    · exact Or.inr ⟨e1.trans e2, le_trans l1 l2⟩⟩

theorem sortIssues_ok {issues l : List WorkItem}
    (h : sortIssues issues = Except.ok l) : l = issues.insertionSort keyR := by
  unfold sortIssues at h
  by_cases hs : sortOk issues = true
  · rw [if_pos hs] at h
    exact (Except.ok.inj h).symm
  · rw [if_neg hs] at h
    exact absurd h (by simp)

theorem sortIssues_sorted {issues l : List WorkItem}
    (h : sortIssues issues = Except.ok l) : List.Sorted keyR l := by
  rw [sortIssues_ok h]
  exact List.sorted_insertionSort keyR issues

theorem issueLoop_spec (oracle : Nat → CreateOutcome) :
    ∀ (items : List WorkItem) (k : Nat) (c : List (Int × Int)),
      (issueLoop oracle items k c).trace
          = ((issueLoop oracle items k c).subs).flatMap subBlock
      ∧ ((issueLoop oracle items k c).subs).map Submission.item = items
      ∧ (issueLoop oracle items k c).created
          = (((issueLoop oracle items k c).subs).filterMap successEntry).reverse ++ c := by
  intro items
  induction items with
  | nil => intro k c; refine ⟨rfl, rfl, rfl⟩
  | cons x rest ih =>
    intro k c
    cases ho : oracle k with
    | success n =>
      obtain ⟨h1, h2, h3⟩ := ih (k + 1) ((x.id, n) :: c)
      refine ⟨?_, ?_, ?_⟩
      · simp only [issueLoop, ho, List.flatMap_cons, subBlock, h1]
        rfl
      · simp only [issueLoop, ho, List.map_cons, h2]
      · simp only [issueLoop, ho, List.filterMap_cons, successEntry, h3,
          List.reverse_cons, List.append_assoc]
        rfl
    | rateLimited =>
      obtain ⟨h1, h2, h3⟩ := ih (k + 1) c
      refine ⟨?_, ?_, ?_⟩
      · simp only [issueLoop, ho, List.flatMap_cons, subBlock, h1]
        rfl
      · simp only [issueLoop, ho, List.map_cons, h2]
      · simp only [issueLoop, ho, List.filterMap_cons, successEntry, h3]
    | otherError =>
      obtain ⟨h1, h2, h3⟩ := ih (k + 1) c
      refine ⟨?_, ?_, ?_⟩
      · simp only [issueLoop, ho, List.flatMap_cons, subBlock, h1]
        rfl
      · simp only [issueLoop, ho, List.map_cons, h2]
      · simp only [issueLoop, ho, List.filterMap_cons, successEntry, h3]

theorem issueLoop_subs_body {oracle : Nat → CreateOutcome} :
    ∀ {items : List WorkItem} {k : Nat} {c : List (Int × Int)} {s : Submission},
      s ∈ (issueLoop oracle items k c).subs →
      s.body = fullBody s.item s.createdAt ∧ s.title = mkTitle s.item := by
  intro items
  induction items with
  | nil =>
    intro k c s hs
    exact absurd hs (List.not_mem_nil s)
  | cons x rest ih =>
    intro k c s hs
    cases ho : oracle k with
    | success n =>
      rw [show (issueLoop oracle (x :: rest) k c).subs
          = ⟨x, mkTitle x, fullBody x c, c, CreateOutcome.success n⟩
            :: (issueLoop oracle rest (k + 1) ((x.id, n) :: c)).subs by
        simp only [issueLoop, ho]] at hs
      rcases List.mem_cons.mp hs with he | hm
      · subst he; exact ⟨rfl, rfl⟩
      · exact ih hm
    | rateLimited =>
      rw [show (issueLoop oracle (x :: rest) k c).subs
          = ⟨x, mkTitle x, fullBody x c, c, CreateOutcome.rateLimited⟩
            :: (issueLoop oracle rest (k + 1) c).subs by
        simp only [issueLoop, ho]] at hs
      rcases List.mem_cons.mp hs with he | hm
      · subst he; exact ⟨rfl, rfl⟩
      · exact ih hm
    | otherError =>
      rw [show (issueLoop oracle (x :: rest) k c).subs
          = ⟨x, mkTitle x, fullBody x c, c, CreateOutcome.otherError⟩
            :: (issueLoop oracle rest (k + 1) c).subs by
        simp only [issueLoop, ho]] at hs
      rcases List.mem_cons.mp hs with he | hm
      · subst he; exact ⟨rfl, rfl⟩
      · exact ih hm

theorem issueLoop_createdAt_src {oracle : Nat → CreateOutcome} :
    ∀ {items : List WorkItem} {k : Nat} {c : List (Int × Int)} {s : Submission},
      s ∈ (issueLoop oracle items k c).subs →
      ∀ {p : Int × Int}, p ∈ s.createdAt →
      p ∈ c ∨ ∃ s2, s2 ∈ (issueLoop oracle items k c).subs
        ∧ s2.item.id = p.1 ∧ s2.outcome = CreateOutcome.success p.2 := by
  intro items
  induction items with
  | nil =>
    intro k c s hs
    exact absurd hs (List.not_mem_nil s)
  | cons x rest ih =>
    intro k c s hs p hp
    cases ho : oracle k with
    | success n =>
      have hsubs : (issueLoop oracle (x :: rest) k c).subs
          = ⟨x, mkTitle x, fullBody x c, c, CreateOutcome.success n⟩
            :: (issueLoop oracle rest (k + 1) ((x.id, n) :: c)).subs := by
        simp only [issueLoop, ho]
      rw [hsubs] at hs
      rcases List.mem_cons.mp hs with he | hm
      · subst he
        exact Or.inl hp
      · rcases ih hm hp with hc | ⟨s2, hs2, hid, hout⟩
        · rcases List.mem_cons.mp hc with hph | hpc
          · subst hph
            refine Or.inr ⟨⟨x, mkTitle x, fullBody x c, c, CreateOutcome.success n⟩, ?_, rfl, rfl⟩
            rw [hsubs]
            exact List.mem_cons_self _ _
          · exact Or.inl hpc
        · refine Or.inr ⟨s2, ?_, hid, hout⟩
          rw [hsubs]
          exact List.mem_cons_of_mem _ hs2
    | rateLimited =>
      have hsubs : (issueLoop oracle (x :: rest) k c).subs
          = ⟨x, mkTitle x, fullBody x c, c, CreateOutcome.rateLimited⟩
            :: (issueLoop oracle rest (k + 1) c).subs := by
        simp only [issueLoop, ho]
      rw [hsubs] at hs
      rcases List.mem_cons.mp hs with he | hm
      · subst he
        exact Or.inl hp
      · rcases ih hm hp with hc | ⟨s2, hs2, hid, hout⟩
        · exact Or.inl hc
        · refine Or.inr ⟨s2, ?_, hid, hout⟩
          rw [hsubs]
          exact List.mem_cons_of_mem _ hs2
    | otherError =>
      have hsubs : (issueLoop oracle (x :: rest) k c).subs
          = ⟨x, mkTitle x, fullBody x c, c, CreateOutcome.otherError⟩
            :: (issueLoop oracle rest (k + 1) c).subs := by
        simp only [issueLoop, ho]
      rw [hsubs] at hs
      rcases List.mem_cons.mp hs with he | hm
      · subst he
        exact Or.inl hp
      · rcases ih hm hp with hc | ⟨s2, hs2, hid, hout⟩
        · exact Or.inl hc
        · refine Or.inr ⟨s2, ?_, hid, hout⟩
          rw [hsubs]
          exact List.mem_cons_of_mem _ hs2

theorem lookupCreated_mem {d n : Int} :
    ∀ {c : List (Int × Int)}, lookupCreated d c = some n → (d, n) ∈ c := by
  intro c
  induction c with
  | nil => intro h; exact absurd h (by simp [lookupCreated])
  | cons p rest ih =>
    intro h
    obtain ⟨i, m⟩ := p
    unfold lookupCreated at h
    by_cases hi : i = d
    · rw [if_pos hi] at h
      have : m = n := Option.some.inj h
      subst hi; subst this
      exact List.mem_cons_self _ _
    · rw [if_neg hi] at h
      exact List.mem_cons_of_mem _ (ih h)

theorem mainRun_run_eq {token : Option String} {repo : String}
    {issues l : List WorkItem} {oracle : Nat → CreateOutcome}
    (hl : sortIssues issues = Except.ok l) (ht : pyFalsy token = false) :
    mainRun false token repo (LoadResult.ok issues) true oracle
      = (0, ⟨Step.call (RemoteCall.getRepo repo) :: (issueLoop oracle l 0 []).trace,
          (issueLoop oracle l 0 []).subs, (issueLoop oracle l 0 []).created, [], false⟩) := by
  unfold mainRun create_github_issues
  rw [ht]
  dsimp only
  rw [hl]
  rfl

theorem mainRun_subs_mem {token : Option String} {repo : String}
    {issues : List WorkItem} {oracle : Nat → CreateOutcome} {s : Submission}
    (hs : s ∈ (mainRun false token repo (LoadResult.ok issues) true oracle).2.subs) :
    pyFalsy token = false ∧ ∃ l, sortIssues issues = Except.ok l
      ∧ s ∈ (issueLoop oracle l 0 []).subs := by
  cases ht : pyFalsy token with
  | true =>
    rw [show mainRun false token repo (LoadResult.ok issues) true oracle = (1, exitEarly) by
      unfold mainRun; rw [ht]; rfl] at hs
    exact absurd hs (List.not_mem_nil s)
  | false =>
    refine ⟨rfl, ?_⟩
    cases hl : sortIssues issues with
    | error e =>
      rw [show mainRun false token repo (LoadResult.ok issues) true oracle
          = (1, ⟨[Step.call (RemoteCall.getRepo repo)], [], [], [], true⟩) by
        unfold mainRun create_github_issues; rw [ht]; dsimp only; rw [hl]; rfl] at hs
      exact absurd hs (List.not_mem_nil s)
    | ok l =>
      rw [mainRun_run_eq hl ht] at hs
      exact ⟨l, rfl, hs⟩

theorem sortIssues_error_iff {issues : List WorkItem} :
    sortIssues issues = Except.error PyError.typeError ↔ sortOk issues = false := by
  unfold sortIssues
  cases hs : sortOk issues with
  | true => simp
  | false => simp

/-- The exit code of a run, characterised: 1 exactly on a missing
credential (non-dry-run), missing file, malformed file, inaccessible
repository, or a mixed-type sort key. -/
theorem mainRun_exit_iff (dry : Bool) (token : Option String) (repo : String)
    (load : LoadResult) (repoOk : Bool) (oracle : Nat → CreateOutcome) :
    (mainRun dry token repo load repoOk oracle).1 = 1 ↔
      ((!dry && pyFalsy token) = true
        ∨ load = LoadResult.notFound
        ∨ load = LoadResult.parseError
        ∨ ∃ issues, load = LoadResult.ok issues
            ∧ (repoOk = false ∨ sortOk issues = false)) := by
  unfold mainRun
  cases htok : (!dry && pyFalsy token) with
  | true => simp
  | false =>
    simp only [Bool.false_eq_true, if_false]
    cases load with
    | notFound => simp
    | parseError => simp
    | ok issues =>
      unfold create_github_issues
      cases hrep : repoOk with
      | false => simp
      | true =>
        simp only [Bool.not_true, Bool.false_eq_true, if_false]
        cases hsort : sortOk issues with
        | false =>
          rw [show sortIssues issues = Except.error PyError.typeError from
            sortIssues_error_iff.mpr hsort]
          simp [hsort]
        | true =>
          rw [show sortIssues issues = Except.ok (issues.insertionSort keyR) by
            unfold sortIssues; rw [hsort]; simp]
          cases dry with
          | true => simp [hsort]
          | false => simp [hsort]

/-- C3 counterexample: a run with a present credential, a successfully
loaded and parsed input file, an accessible repository, and an outcome
oracle that succeeds on every create call, yet exiting with code 1 —
because the input mixes a string phase (`"security"`) with an int
phase key, so the sort raises an uncaught `TypeError`. This contradicts
the claim that exit code 1 occurs only on the four listed fatal
conditions. -/
theorem c3_counterexample :
    (mainRun false (some "token") "jarz/SecureSpec.AspNetCore"
        (LoadResult.ok [itemStrPhase, itemDep]) true oracleSeq).1 = 1 := by decide

/-- C9 (confirmed): an input containing an item whose phase is a string
other than `cross-cutting` alongside an item whose phase is numeric (or
is the `cross-cutting` sentinel, whose key is the int 0) makes the sort
key comparison raise `TypeError`, and every run on such an input exits
with code 1 instead of producing a miscompared order. -/
theorem c9_theorem {issues : List WorkItem} {x y : WorkItem} {s : String}
    (hx : x ∈ issues) (hy : y ∈ issues) (hxs : x.phase = Phase.str s)
    (hscc : s ≠ "cross-cutting")
    (hyn : (∃ n : Int, y.phase = Phase.num n) ∨ y.phase = Phase.str "cross-cutting") :
    sortIssues issues = Except.error PyError.typeError
    ∧ ∀ (dry : Bool) (token : Option String) (repo : String) (repoOk : Bool)
        (oracle : Nat → CreateOutcome),
        (mainRun dry token repo (LoadResult.ok issues) repoOk oracle).1 = 1 := by
  have hxkey : phaseKey x.phase = PyKey.str s := by
    rw [hxs]
    show (if s = "cross-cutting" then PyKey.int 0 else PyKey.str s) = PyKey.str s
    rw [if_neg hscc]
  have hykey : ∃ n : Int, phaseKey y.phase = PyKey.int n := by
    rcases hyn with ⟨n, hn⟩ | hcc
    · exact ⟨n, by rw [hn]; rfl⟩
    · exact ⟨0, by rw [hcc]; unfold phaseKey; simp⟩
  obtain ⟨n, hykey⟩ := hykey
  have hsort : sortOk issues = false := by
    unfold sortOk
    rw [Bool.or_eq_false_iff]
    constructor
    · rw [show issues.all (fun z => (phaseKey z.phase).isInt) = false by
        rw [List.all_eq_false]
        exact ⟨x, hx, by rw [hxkey]; simp [PyKey.isInt]⟩]
    · rw [show issues.all (fun z => (phaseKey z.phase).isStr) = false by
        rw [List.all_eq_false]
        exact ⟨y, hy, by rw [hykey]; simp [PyKey.isStr]⟩]
  refine ⟨sortIssues_error_iff.mpr hsort, ?_⟩
  intro dry token repo repoOk oracle
  rw [mainRun_exit_iff]
  exact Or.inr (Or.inr (Or.inr ⟨issues, rfl, Or.inr hsort⟩))

/-- C3 (amended): the process exits with code 1 exactly when the
credential is missing in a non-dry run, the input file is absent, the
input file is unparsable, the remote repository is inaccessible, or the
sort aborts with a `TypeError` because the input mixes a non-sentinel
string phase with int phase keys; every other run exits 0, in
particular runs in which individual create calls fail mid-run (the
right-hand side does not depend on the outcome oracle). -/
theorem c3_theorem (dry : Bool) (token : Option String) (repo : String)
    (load : LoadResult) (repoOk : Bool) (oracle : Nat → CreateOutcome) :
    (mainRun dry token repo load repoOk oracle).1 = 1 ↔
      ((!dry && pyFalsy token) = true
        ∨ load = LoadResult.notFound
        ∨ load = LoadResult.parseError
        ∨ ∃ issues, load = LoadResult.ok issues
            ∧ (repoOk = false ∨ sortOk issues = false)) :=
  mainRun_exit_iff dry token repo load repoOk oracle

/-- C1 counterexample: a dry run (over an accessible repository, with an
empty-to-small input) still performs a remote call, namely the
repository lookup, refuting "zero remote calls" — `get_repo` is invoked
before the dry-run branch is consulted. -/
theorem c1_counterexample :
    remoteCalls (mainRun true none "jarz/SecureSpec.AspNetCore"
        (LoadResult.ok [itemBase]) true oracleFail).2.trace
      = [RemoteCall.getRepo "jarz/SecureSpec.AspNetCore"] := by decide

/-- C1 (amended): a dry run performs exactly one remote call — the
read-only repository lookup — and no create-item call; it creates
nothing, submits nothing, exits 0, and still reports the full sorted
would-be set of items (identifier and title). -/
theorem c1_theorem (token : Option String) (repo : String)
    (issues l : List WorkItem) (oracle : Nat → CreateOutcome)
    (h : sortIssues issues = Except.ok l) :
    (mainRun true token repo (LoadResult.ok issues) true oracle).2.trace
        = [Step.call (RemoteCall.getRepo repo)]
    ∧ (mainRun true token repo (LoadResult.ok issues) true oracle).2.subs = []
    ∧ (mainRun true token repo (LoadResult.ok issues) true oracle).2.created = []
    ∧ (mainRun true token repo (LoadResult.ok issues) true oracle).2.reported
        = l.map (fun x => (x.id, mkTitle x))
    ∧ (mainRun true token repo (LoadResult.ok issues) true oracle).1 = 0 := by
  have hrun : mainRun true token repo (LoadResult.ok issues) true oracle
      = (0, ⟨[Step.call (RemoteCall.getRepo repo)], [], [],
          l.map (fun x => (x.id, mkTitle x)), false⟩) := by
    unfold mainRun create_github_issues
    dsimp only
    rw [h]
    rfl
  rw [hrun]
  exact ⟨rfl, rfl, rfl, rfl, rfl⟩

/-- C1 witness: the amended dry-run theorem at a concrete input. -/
theorem c1_witness :
    (mainRun true none "o/r" (LoadResult.ok [itemDep, itemBase]) true oracleFail).2.trace
        = [Step.call (RemoteCall.getRepo "o/r")]
    ∧ (mainRun true none "o/r" (LoadResult.ok [itemDep, itemBase]) true oracleFail).2.subs = []
    ∧ (mainRun true none "o/r" (LoadResult.ok [itemDep, itemBase]) true
        oracleFail).2.created = []
    ∧ (mainRun true none "o/r" (LoadResult.ok [itemDep, itemBase]) true
        oracleFail).2.reported = [itemBase, itemDep].map (fun x => (x.id, mkTitle x))
    ∧ (mainRun true none "o/r" (LoadResult.ok [itemDep, itemBase]) true oracleFail).1 = 0 :=
  c1_theorem none "o/r" [itemDep, itemBase] [itemBase, itemDep] oracleFail (by decide)

/-- C2 counterexample: an item with the numbered phase 0 precedes a
cross-cutting item in the sorted output (the sentinel key for
`cross-cutting` is the int 0, which ties with a literal phase 0 and
then loses on identifier), refuting "every cross-cutting item precedes
every numbered-phase item". -/
theorem c2_counterexample :
    sortIssues [itemPhaseZero, itemCrossCut] = Except.ok [itemPhaseZero, itemCrossCut]
    ∧ itemPhaseZero.phase = Phase.num 0
    ∧ itemCrossCut.phase = Phase.str "cross-cutting"
    ∧ itemPhaseZero.id < itemCrossCut.id := by
  exact ⟨by decide, by decide, by decide, by decide⟩

/-- C2 (amended): in the sorted output, every cross-cutting item
precedes every item with a numbered phase at least 1 (a numbered phase
of 0 — or below — shares or beats the sentinel key 0 of cross-cutting),
and within each sort-key group identifiers ascend. -/
theorem c2_theorem {issues l : List WorkItem} (h : sortIssues issues = Except.ok l) :
    l.Pairwise (fun a b =>
      (∀ n : Int, a.phase = Phase.num n → 1 ≤ n → b.phase ≠ Phase.str "cross-cutting")
      ∧ (phaseKey a.phase = phaseKey b.phase → a.id ≤ b.id)) := by
  have hs : List.Sorted keyR l := sortIssues_sorted h
  refine hs.imp ?_
  intro a b hab
  constructor
  · intro n hn h1 hcc
    unfold keyR keyLE at hab
    rw [hn, hcc] at hab
    simp [phaseKey, pkLTb, PyKey.int.injEq] at hab
    rcases hab with h2 | ⟨h2, h3⟩
    · omega
    · omega
  · intro he
    unfold keyR keyLE at hab
    rw [he] at hab
    simp only [pkLTb_irrefl, Bool.false_or, Bool.and_eq_true, decide_eq_true_eq] at hab
    exact hab.2

/-- C2 witness: the amended sort-order theorem at a concrete input. -/
theorem c2_witness :
    ([itemBase, itemDep] : List WorkItem).Pairwise (fun a b =>
      (∀ n : Int, a.phase = Phase.num n → 1 ≤ n → b.phase ≠ Phase.str "cross-cutting")
      ∧ (phaseKey a.phase = phaseKey b.phase → a.id ≤ b.id)) :=
  @c2_theorem [itemDep, itemBase] [itemBase, itemDep] (by decide)

/-- C4 (confirmed): the trace of the creation loop is exactly one block per
item, in input order — a create call, then on success a 1-second sleep,
on a 403 (rate limit) an error log and a fixed 60-second sleep, and on
any other error just an error log — after which the loop continues
directly with the block of the next item; every item is attempted exactly
once (no retry), and the created map receives exactly the successful
`(identifier, returned number)` pairs of the successful attempts and nothing from failed
attempts. -/
theorem c4_theorem (oracle : Nat → CreateOutcome) (items : List WorkItem)
    (k : Nat) (c : List (Int × Int)) :
    (issueLoop oracle items k c).trace
        = ((issueLoop oracle items k c).subs).flatMap subBlock
    ∧ ((issueLoop oracle items k c).subs).map Submission.item = items
    ∧ (issueLoop oracle items k c).created
        = (((issueLoop oracle items k c).subs).filterMap successEntry).reverse ++ c :=
  issueLoop_spec oracle items k c

/-- C5 (confirmed): in a non-dry run, if a submitted item lists a
dependency that resolves in the created map at submission time, the
submitted body contains the line `- Depends on #<number>` with exactly
the number recorded for that dependency, and that number is the one
returned by the successful create call of the dependency earlier in the
same run. -/
theorem c5_theorem {token : Option String} {repo : String} {issues : List WorkItem}
    {oracle : Nat → CreateOutcome} {s : Submission} {d n : Int}
    (hs : s ∈ (mainRun false token repo (LoadResult.ok issues) true oracle).2.subs)
    (hd : d ∈ s.item.dependencies)
    (hn : lookupCreated d s.createdAt = some n) :
    ContainsSubstr s.body ("- Depends on #" ++ toString n ++ "\n")
    ∧ ∃ s2, s2 ∈ (mainRun false token repo (LoadResult.ok issues) true oracle).2.subs
        ∧ s2.item.id = d ∧ s2.outcome = CreateOutcome.success n := by
  obtain ⟨ht, l, hl, hmem⟩ := mainRun_subs_mem hs
  have hb := (issueLoop_subs_body hmem).1
  refine ⟨?_, ?_⟩
  · rw [hb]
    exact fullBody_depends hd hn
  · have hpmem : (d, n) ∈ s.createdAt := lookupCreated_mem hn
    rcases issueLoop_createdAt_src hmem hpmem with h0 | ⟨s2, hs2, hid, hout⟩
    · exact absurd h0 (List.not_mem_nil _)
    · refine ⟨s2, ?_, hid, hout⟩
      rw [mainRun_run_eq hl ht]
      exact hs2

/-- C5 witness: the dependency-link theorem at a concrete two-item run
in which item 1 is created with number 100 before item 2 (which depends
on it) is submitted. -/
theorem c5_witness :
    ContainsSubstr ((((mainRun false (some "t") "o/r" (LoadResult.ok [itemDep, itemBase])
          true oracleSeq).2.subs).get ⟨1, by decide⟩).body)
        ("- Depends on #" ++ toString (100 : Int) ++ "\n")
    ∧ ∃ s2, s2 ∈ (mainRun false (some "t") "o/r" (LoadResult.ok [itemDep, itemBase])
          true oracleSeq).2.subs
        ∧ s2.item.id = 1 ∧ s2.outcome = CreateOutcome.success 100 :=
  c5_theorem (List.get_mem _ _ _) (by decide) (by decide)

/-- C6 (confirmed): in a non-dry run, a dependency of a submitted item that
is absent from the created map at submission time still appears as the
plain-text line `- Issue <identifier>` in the Dependencies section of
the submitted body, while the `Depends on` lines are exactly those of
the other, resolved dependencies (removing the unresolved identifier
from the list leaves them unchanged); rendering is total, so no error
is raised. -/
theorem c6_theorem {token : Option String} {repo : String} {issues : List WorkItem}
    {oracle : Nat → CreateOutcome} {s : Submission} {d : Int}
    (hs : s ∈ (mainRun false token repo (LoadResult.ok issues) true oracle).2.subs)
    (hd : d ∈ s.item.dependencies)
    (hn : lookupCreated d s.createdAt = none) :
    ContainsSubstr s.body ("- Issue " ++ toString d ++ "\n")
    ∧ dependsLines s.createdAt s.item.dependencies
        = dependsLines s.createdAt (s.item.dependencies.filter (fun e => e != d)) := by
  obtain ⟨ht, l, hl, hmem⟩ := mainRun_subs_mem hs
  have hb := (issueLoop_subs_body hmem).1
  refine ⟨?_, dependsLines_unresolved hn _⟩
  rw [hb]
  exact fullBody_contains_format (format_contains_dep hd)

/-- C6 witness: the unresolved-dependency theorem at a concrete run in
which every create call fails, so the dependency of item 2 on item 1 is
never resolved. -/
theorem c6_witness :
    ContainsSubstr ((((mainRun false (some "t") "o/r" (LoadResult.ok [itemDep, itemBase])
          true oracleFail).2.subs).get ⟨1, by decide⟩).body)
        ("- Issue " ++ toString (1 : Int) ++ "\n")
    ∧ dependsLines (((mainRun false (some "t") "o/r" (LoadResult.ok [itemDep, itemBase])
          true oracleFail).2.subs).get ⟨1, by decide⟩).createdAt
        ((((mainRun false (some "t") "o/r" (LoadResult.ok [itemDep, itemBase])
          true oracleFail).2.subs).get ⟨1, by decide⟩).item.dependencies)
      = dependsLines (((mainRun false (some "t") "o/r" (LoadResult.ok [itemDep, itemBase])
          true oracleFail).2.subs).get ⟨1, by decide⟩).createdAt
        (((((mainRun false (some "t") "o/r" (LoadResult.ok [itemDep, itemBase])
          true oracleFail).2.subs).get ⟨1, by decide⟩).item.dependencies).filter
          (fun e => e != 1)) :=
  c6_theorem (List.get_mem _ _ _) (by decide) (by decide)

/-- C7 (confirmed): the rendered body contains the description of the item,
its effort value, and every acceptance criterion verbatim (as exact
substrings). -/
theorem c7_theorem (x : WorkItem) :
    ContainsSubstr (format_issue_body x) x.description
    ∧ ContainsSubstr (format_issue_body x) (toString x.effort_days)
    ∧ ∀ a, a ∈ x.acceptance_criteria → ContainsSubstr (format_issue_body x) a :=
  ⟨format_contains_description x, format_contains_effort x,
    fun _ ha => format_contains_ac ha⟩

/-- C7 witness: the verbatim-rendering theorem at a concrete item and a
concrete acceptance criterion. -/
theorem c7_witness :
    ContainsSubstr (format_issue_body itemBase) itemBase.description
    ∧ ContainsSubstr (format_issue_body itemBase) "crit A" :=
  ⟨(c7_theorem itemBase).1, (c7_theorem itemBase).2.2 "crit A" (by decide)⟩

/-- C8 (confirmed): an item with an empty dependency list renders
exactly the text `None` under the `## Dependencies` heading — the body
is the fixed header part (ending in the Dependencies heading), then
`None`, then immediately the Acceptance Criteria heading, with no
dependency bullet line. -/
theorem c8_theorem (x : WorkItem) (h : x.dependencies = []) :
    format_issue_body x = descPart x ++ "None\n" ++ acPart x ++ phasePart x
    ∧ descPart x
      = "## Description\n" ++ x.description ++ "\n\n## Estimated Effort\n"
        ++ toString x.effort_days ++ " days\n" ++ "\n## Priority\n"
        ++ pyUpper x.priority ++ "\n" ++ "\n## Dependencies\n"
    ∧ acPart x = "\n## Acceptance Criteria\n" ++ acSection x.acceptance_criteria := by
  refine ⟨?_, rfl, rfl⟩
  unfold format_issue_body depSection
  rw [h]
  rfl

/-- C8 witness: the empty-dependencies theorem at a concrete item. -/
theorem c8_witness :
    format_issue_body itemBase = descPart itemBase ++ "None\n" ++ acPart itemBase
        ++ phasePart itemBase
    ∧ descPart itemBase
      = "## Description\n" ++ itemBase.description ++ "\n\n## Estimated Effort\n"
        ++ toString itemBase.effort_days ++ " days\n" ++ "\n## Priority\n"
        ++ pyUpper itemBase.priority ++ "\n" ++ "\n## Dependencies\n"
    ∧ acPart itemBase = "\n## Acceptance Criteria\n" ++ acSection itemBase.acceptance_criteria :=
  c8_theorem itemBase (by decide)

/-- C10 (confirmed): the Priority section of the rendered body contains
the upper-cased form of the priority string of the item (the renderer applies
`upper()` rather than copying the value verbatim). -/
theorem c10_theorem (x : WorkItem) :
    ContainsSubstr (format_issue_body x) ("\n## Priority\n" ++ pyUpper x.priority ++ "\n") :=
  format_contains_priority x

/-- C9 witness: the mixed-phase abort theorem at a concrete input
containing a string-phase item (`"security"`) and an int-phase item. -/
theorem c9_witness :
    sortIssues [itemStrPhase, itemDep] = Except.error PyError.typeError
    ∧ (mainRun false (some "tok") "o/r" (LoadResult.ok [itemStrPhase, itemDep]) true
        oracleFail).1 = 1 :=
  have h := @c9_theorem [itemStrPhase, itemDep] itemStrPhase itemDep "security"
    (by decide) (by decide) (by decide) (by decide) (Or.inl ⟨1, by decide⟩)
  ⟨h.1, h.2 false (some "tok") "o/r" true oracleFail⟩
